import Mathlib

/-!
Shallow embedding of the KAT spectra module (scripts/kat/spectra.py).

The module models a k-mer frequency histogram as a mixture of Gaussian-like
peaks.  We embed the pure computational content over exact rationals:

* `smooth` — the moving-average smoother (module function `smooth`);
* `Spectra` with `updateModel`, `residuals`, `optimise`, `analyse` — the
  global fitting engine of class `Spectra`;
* `createInitialPeaksK` — `KmerSpectra._createInitialPeaks`;
* `getHomozygousPeakIndex`, `calcKmerCoverage` — genome metrics of
  `KmerSpectra`.

External collaborators (the per-peak Gaussian model `peak.createModel`, the
local optimiser `Peak.optimise`, and the scipy bounded least-squares solver)
are not part of this repository; they enter the embedding as explicit
function parameters.  Floating point is idealised as exact rational
arithmetic; `np.sqrt` composed with `int(2 * _)` is embedded through the
identity  floor (2 * sqrt mu) = Nat.sqrt (floor (4 * mu))  which is exact
whenever `4 * mu` is an integer, as it is for every candidate frequency the
code produces.  Python exceptions are embedded as `Except String`.
-/

namespace KatSpectra

/-- Embedding of module function `smooth(x, window_len=3)`.

Mirrors the numpy recipe: if the input is shorter than the window or the
window is below 3, return the input unchanged; otherwise reflect-pad both
ends with `window_len - 1` samples (`x[window_len-1:0:-1]` and
`x[-2:-window_len-1:-1]`) and convolve with the normalised flat window in
"valid" mode.  The n-dimensionality check of the numpy version is vacuous
here since a `List` is one-dimensional. -/
def smooth (x : List ℚ) (window_len : ℕ) : List ℚ :=
  if x.length < window_len ∨ window_len < 3 then x
  else
    let s := ((x.drop 1).take (window_len - 1)).reverse ++ x ++
      ((x.drop (x.length - window_len)).take (window_len - 1)).reverse
    (List.range (s.length - window_len + 1)).map
      (fun j => ((s.drop j).take window_len).sum / (window_len : ℚ))

/-- State of one peak as seen by the global fitter: the external `Peak`
collaborator exposes `mean()`, `stddev()`, `peak()` (the height) and
`elements()` (the fitted volume).  All are floats in the source, embedded
as rationals. -/
structure FittedPeak where
  mean : ℚ
  stddev : ℚ
  height : ℚ
  elements : ℚ
deriving DecidableEq, Repr

/-- The `Spectra` aggregate: the raw histogram, the k value and the current
peak set.  `peaks` is `none` before `_createInitialPeaks` ran or when it
declared the spectrum unanalysable (Python `None`), `some l` otherwise.
The derived fitted-curve sample array `Ty` (always the elementwise sum of
the individual peak curves) is presentation state and is not carried. -/
structure Spectra where
  histogram : List ℚ
  k : ℕ
  peaks : Option (List FittedPeak)
deriving DecidableEq, Repr

/-- Embedding of `Spectra._updateModel(params)` restricted to its effect on
the peak records: raises `ValueError` on a parameter-count mismatch,
otherwise calls `updateModel(mean, params[i], stddev)` on each peak, i.e.
keeps every mean and stddev and overwrites every height. -/
def updateModel (peaks : List FittedPeak) (params : List ℚ) :
    Except String (List FittedPeak) :=
  if params.length ≠ peaks.length then
    .error "Unexpected number of parameters"
  else
    .ok (List.zipWith (fun p x => { p with height := x }) peaks params)

/-- Embedding of `Spectra._residuals(params)`.  `createModel` is the
external per-peak curve constructor `peak.createModel`, taken pointwise in
its first argument (the source evaluates it on the vector `Tx = [0..n-1]`).
`realTy` is the raw histogram (set by `optimise` just before solving).

For each peak the curve at its fixed mean/stddev and the candidate height
is built; a peak whose `mean - 2 * stddev < 1` has its contribution scaled
by 1000.  The residual vector is histogram minus model, then every
negative entry is multiplied by the number of peaks, and the first five
entries are zeroed. -/
def residuals (createModel : ℚ → ℚ → ℚ → ℚ → ℚ) (s : Spectra)
    (params : List ℚ) : Except String (List ℚ) :=
  match s.peaks with
  | none => .error "Unexpected number of parameters"
  | some ps =>
    if params.length ≠ ps.length then
      .error "Unexpected number of parameters"
    else
      let model : ℚ → ℚ := fun x =>
        (List.zipWith (fun p hh =>
          let pdist := createModel x p.mean p.stddev hh
          if p.mean - 2 * p.stddev < 1 then pdist * 1000 else pdist)
          ps params).sum
      let raw := (List.range s.histogram.length).map
        (fun i => s.histogram.getD i 0 - model (i : ℚ))
      .ok (raw.mapIdx (fun i d =>
        let d2 := if d < 0 then d * (ps.length : ℚ) else d
        if i < 5 then 0 else d2))

/-- Embedding of `Spectra.optimise()`.  The scipy call
`optimize.least_squares(self._residuals, params, bounds=(lb, ub),
loss="soft_l1")` is the external `solver` parameter: it receives the
initial parameter vector (the current peak heights) and the bound vectors
(`0` below, the current height above) and yields `.error` when scipy
raises, `.ok none` when it returns with `res.success` false, and
`.ok (some x)` with the solution vector on success.  On success the
solution is written back through `updateModel`. -/
def optimise (solver : List ℚ → List ℚ → List ℚ → Except String (Option (List ℚ)))
    (s : Spectra) : Except String Spectra :=
  match s.peaks with
  | none => .error "Cannot optimise peaks because none are defined."
  | some ps =>
    if ps = [] then .error "Cannot optimise peaks because none are defined."
    else
      let params := ps.map (fun p => p.height)
      let lower_bounds := ps.map (fun _ => (0 : ℚ))
      let upper_bounds := ps.map (fun p => p.height)
      match solver params lower_bounds upper_bounds with
      | .error e => .error e
      | .ok none => .ok s
      | .ok (some x) =>
        match updateModel ps x with
        | .error e => .error e
        | .ok ps2 => .ok { s with peaks := some ps2 }

/-- The fixed warning `Spectra.analyse` prints on stderr when the global
fit raises. -/
def analyseWarning : String :=
  "WARNING: problem optimising peaks. It is likely that the spectra is too complex to analyse properly.  Output for this spectra may not be valid."

/-- Embedding of `Spectra.analyse(min_elements=1)`.  The abstract method
`_createInitialPeaks` is the parameter `createPeaks`, the external local
optimiser `Peak.optimise(histogram)` is `localOpt`, and the scipy solver is
threaded through to `optimise`.  Returns the final spectra paired with the
messages printed on the diagnostic stream; the bare `except` block of the
source makes the function total, which is why no `Except` appears in the
result type. -/
def analyse (createPeaks : Spectra → Option (List FittedPeak))
    (localOpt : List ℚ → FittedPeak → FittedPeak)
    (solver : List ℚ → List ℚ → List ℚ → Except String (Option (List ℚ)))
    (min_elements : ℚ) (s : Spectra) : Spectra × List String :=
  let s1 := { s with peaks := createPeaks s }
  match s1.peaks with
  | none => (s1, [])
  | some ps =>
    if ps = [] then (s1, [])
    else
      let refined := ps.map (localOpt s.histogram)
      let kept := refined.filter (fun p => min_elements ≤ p.elements)
      let s2 := { s1 with peaks := some kept }
      match optimise solver s2 with
      | .ok s3 => (s3, [])
      | .error msg => (s2, [analyseWarning, msg])

/-! ## Initial peak location (`KmerSpectra._createInitialPeaks`) -/

/-- A peak as constructed by `KmerSpectra._createInitialPeaks`:
`Peak(mean, sigma, histogram[mean], mean == fmax)`.  The constructor
argument `sigma` is `sqrt(mu)`, irrational in general, so it is carried by
its square `sigmaSq = mu`; no claim reads the standard deviation of an
initial peak, only its mean, height and primary flag. -/
structure InitialPeak where
  mean : ℕ
  sigmaSq : ℚ
  height : ℚ
  isPrimary : Bool
deriving DecidableEq, Repr

/-- The candidate frequency list of `_createInitialPeaks`: `fmax / 2.0`
(skipped for haploid genomes) followed by `fmax * i` for `i` in `1..4`. -/
def candidateFreqs (fmax : ℕ) (haploid : Bool) : List ℚ :=
  (if haploid then [] else [(fmax : ℚ) / 2]) ++
    (List.range' 1 4).map (fun i => ((fmax * i : ℕ) : ℚ))

/-- `radius = int(sigma * 2.0)` with `sigma = np.sqrt(mu)`: the integer
part of `2 * sqrt mu`, i.e. `Nat.sqrt (floor (4 * mu))` (exact because
`4 * mu` is an integer for every candidate frequency). -/
def pkRadius (mu : ℚ) : ℕ := Nat.sqrt ⌊4 * mu⌋.toNat

/-- `mean = int(mu)` (the candidate frequencies are nonnegative, so Python
truncation is the floor). -/
def pkMean (mu : ℚ) : ℕ := ⌊mu⌋.toNat

/-- The acceptance condition of `_createInitialPeaks`:
`radius >= 2 and mean > fmin and mu - radius > 0 and mu + radius < len(histogram)`. -/
def pkAccept (hlen : ℕ) (fmin : ℕ) (mu : ℚ) : Prop :=
  2 ≤ pkRadius mu ∧ fmin < pkMean mu ∧
    0 < mu - (pkRadius mu : ℚ) ∧ mu + (pkRadius mu : ℚ) < (hlen : ℚ)

instance (hlen fmin : ℕ) (mu : ℚ) : Decidable (pkAccept hlen fmin mu) := by
  unfold pkAccept; infer_instance

/-- The `Peak(...)` constructor call of `_createInitialPeaks`: mean
`int(mu)`, stddev `sqrt(mu)` (carried squared), height the histogram value
at the mean, primary iff the mean equals `fmax`. -/
def mkInitialPeak (h : List ℚ) (fmax : ℕ) (mu : ℚ) : InitialPeak :=
  ⟨pkMean mu, mu, h.getD (pkMean mu) 0, decide (pkMean mu = fmax)⟩

/-- The minimum scan of `_createInitialPeaks`: the first index `i` in
`range(1, len(histogram) - 2)` with
`histogram[i] < histogram[i+1] and histogram[i] < histogram[i+2]`,
and `0` when no such index exists. -/
def findFmin (h : List ℚ) : ℕ :=
  ((List.range' 1 (h.length - 3)).find? (fun i =>
    decide (h.getD i 0 < h.getD (i + 1) 0) &&
      decide (h.getD i 0 < h.getD (i + 2) 0))).getD 0

/-- `np.argmax`: the index of the first occurrence of the maximum value
(`0` on the empty list, a case the source never reaches). -/
def npArgmax (l : List ℚ) : ℕ :=
  match l.max? with
  | some m => l.indexOf m
  | none => 0

/-- Embedding of `KmerSpectra._createInitialPeaks` returning
`(fmin, fmax, peaks)` — the two scalar fields it assigns and the peak set
(`none` embeds Python `None`). -/
def createInitialPeaksK (h : List ℚ) (haploid : Bool) :
    ℕ × ℕ × Option (List InitialPeak) :=
  let fmin := findFmin h
  let fmax := if fmin = 0 then 0 else npArgmax (h.drop fmin) + fmin
  if fmax < 10 then (fmin, fmax, none)
  else
    let peaks := (candidateFreqs fmax haploid).foldl (fun acc mu =>
      if pkAccept h.length fmin mu then acc ++ [mkInitialPeak h fmax mu]
      else acc) []
    (fmin, fmax, some peaks)

/-! ## Genome metrics (`KmerSpectra`) -/

/-- The accumulator loop of `getHomozygousPeakIndex` for a user-supplied
approximate frequency: 1-based enumeration, starting state
`min_peak_index = 0`, `delta_peak_freq = 1000000`, updating on strict
improvement only. -/
def closestPeakLoop (approx : ℚ) :
    List FittedPeak → ℕ → ℕ → ℚ → ℕ
  | [], _, idx, _ => idx
  | p :: rest, i, idx, best =>
    let delta := |p.mean - approx|
    if best > delta then closestPeakLoop approx rest (i + 1) i delta
    else closestPeakLoop approx rest (i + 1) idx best

/-- The fallback loop of `getHomozygousPeakIndex`: the first 1-based index
whose peak mean is within 1.0 of `fmax`, else 0. -/
def primaryPeakLoop (fmax : ℕ) : List FittedPeak → ℕ → ℕ
  | [], _ => 0
  | p :: rest, i =>
    if |p.mean - (fmax : ℚ)| < 1 then i else primaryPeakLoop fmax rest (i + 1)

/-- Embedding of `KmerSpectra.getHomozygousPeakIndex(approx_freq=0)`. -/
def getHomozygousPeakIndex (fmax : ℕ) (peaks : List FittedPeak)
    (approx_freq : ℚ) : ℕ :=
  if 0 < approx_freq then closestPeakLoop approx_freq peaks 1 0 1000000
  else primaryPeakLoop fmax peaks 1

/-- Python `int()` applied to an exact rational: truncation toward zero. -/
def pyInt (q : ℚ) : ℤ := if 0 ≤ q then ⌊q⌋ else ⌈q⌉

/-- Embedding of `KmerSpectra.calcKmerCoverage()`:
`int(weighted / tot_vol) if tot_vol > 0 else 0` with
`tot_vol = sum(elements)` and `weighted = sum(mean * elements)`. -/
def calcKmerCoverage (peaks : List FittedPeak) : ℤ :=
  let tot_vol := (peaks.map (fun p => p.elements)).sum
  let weighted := (peaks.map (fun p => p.mean * p.elements)).sum
  if 0 < tot_vol then pyInt (weighted / tot_vol) else 0

/-! ## Shared helper lemmas -/

/-- The append-under-guard `foldl` pattern of the source (`peaks.append(...)`
inside a conditional) is `filter` followed by `map`. -/
theorem foldl_guard_append {α β : Type} (P : α → Prop) [DecidablePred P]
    (f : α → β) : ∀ (l : List α) (acc : List β),
    l.foldl (fun a mu => if P mu then a ++ [f mu] else a) acc =
      acc ++ (l.filter (fun mu => decide (P mu))).map f := by
  intro l
  induction l with
  | nil => intro acc; simp
  | cons x t ih =>
    intro acc
    by_cases hx : P x
    · simp [List.foldl_cons, List.filter_cons, hx, ih]
    · simp [List.foldl_cons, List.filter_cons, hx, ih]

/-- A list all of whose entries equal `c` sums to its length times `c`. -/
theorem list_sum_of_const (l : List ℚ) (c : ℚ) (h : ∀ a ∈ l, a = c) :
    l.sum = (l.length : ℚ) * c := by
  induction l with
  | nil => simp
  | cons a t ih =>
    have ha : a = c := h a (by simp)
    have ht := ih (fun b hb => h b (by simp [hb]))
    simp only [List.sum_cons, List.length_cons, ht, ha]
    push_cast
    ring

/-! ## C8 — the moving-average smoother -/

/-- C8 counterexample: on the length-3 constant input `[1, 1, 1]` with
window 3 the output of `smooth` has length 5, not the input length 3, so
the claimed length preservation (and with it the claim that a constant
sequence is returned unchanged) fails. -/
theorem smooth_c8_counterexample :
    (smooth [1, 1, 1] 3).length ≠ ([1, 1, 1] : List ℚ).length := by decide

/-- C8 (amended): for a 1-dimensional input of length at least the window
and an odd window length of at least 3, the output of `smooth` has length
`input length + window length - 1` (reflect padding in "valid" convolution
mode lengthens the sequence by `window_len - 1`), and smoothing a constant
sequence yields a constant sequence with the same value (of that longer
length). -/
theorem smooth_c8_amended (x : List ℚ) (wl : ℕ) (h3 : 3 ≤ wl)
    (hodd : Odd wl) (hlen : wl ≤ x.length) :
    (smooth x wl).length = x.length + wl - 1 ∧
      ∀ c : ℚ, (∀ a ∈ x, a = c) →
        smooth x wl = List.replicate (x.length + wl - 1) c := by
  have hcond : ¬ (x.length < wl ∨ wl < 3) := by omega
  have hxlen : 1 ≤ x.length := by omega
  have hslen : (((x.drop 1).take (wl - 1)).reverse ++ x ++
      ((x.drop (x.length - wl)).take (wl - 1)).reverse).length =
      x.length + 2 * wl - 2 := by
    simp only [List.length_append, List.length_reverse, List.length_take,
      List.length_drop]
    omega
  constructor
  · simp only [smooth, hcond, if_false, List.length_map, List.length_range,
      hslen]
    omega
  · intro c hc
    have hsmem : ∀ a ∈ (((x.drop 1).take (wl - 1)).reverse ++ x ++
        ((x.drop (x.length - wl)).take (wl - 1)).reverse), a = c := by
      intro a ha
      rcases List.mem_append.1 ha with h1 | h2
      · rcases List.mem_append.1 h1 with h3 | h4
        · exact hc a (List.mem_of_mem_drop
            (List.mem_of_mem_take (List.mem_reverse.1 h3)))
        · exact hc a h4
      · exact hc a (List.mem_of_mem_drop
          (List.mem_of_mem_take (List.mem_reverse.1 h2)))
    simp only [smooth, hcond, if_false]
    rw [List.eq_replicate_iff]
    refine ⟨by simp only [List.length_map, List.length_range, hslen]; omega, ?_⟩
    intro b hb
    simp only [List.mem_map, List.mem_range] at hb
    obtain ⟨j, hj, rfl⟩ := hb
    rw [hslen] at hj
    set s := (((x.drop 1).take (wl - 1)).reverse ++ x ++
      ((x.drop (x.length - wl)).take (wl - 1)).reverse) with hs
    have hwin : ((s.drop j).take wl).length = wl := by
      simp only [List.length_take, List.length_drop, hslen]
      omega
    have hwinc : ∀ a ∈ (s.drop j).take wl, a = c := fun a ha =>
      hsmem a (List.mem_of_mem_drop (List.mem_of_mem_take ha))
    rw [list_sum_of_const _ c hwinc, hwin]
    have hwl0 : (wl : ℚ) ≠ 0 := by
      have : 0 < wl := by omega
      exact_mod_cast this.ne'
    field_simp

/-- C8 witness: the amended theorem applied to the constant input
`[2, 2, 2]` with window 3: the output is the constant list of length 5. -/
theorem smooth_c8_witness :
    (smooth [2, 2, 2] 3).length = 3 + 3 - 1 ∧
      smooth [2, 2, 2] 3 = List.replicate (3 + 3 - 1) (2 : ℚ) := by
  obtain ⟨h1, h2⟩ := smooth_c8_amended [2, 2, 2] 3 (by norm_num)
    ⟨1, by norm_num⟩ (by norm_num)
  exact ⟨h1, h2 2 (by decide)⟩

/-! ## C7 — mean k-mer coverage -/

/-- Two peaks of unit volume at means 1 and 2: the volume-weighted mean is
`3 / 2`. -/
def covPeaks : List FittedPeak := [⟨1, 1, 1, 1⟩, ⟨2, 1, 1, 1⟩]

/-- C7 counterexample: `calcKmerCoverage` truncates to an integer, so on
two unit-volume peaks at means 1 and 2 it returns 1, not the exact
volume-weighted mean `3 / 2`. -/
theorem calcKmerCoverage_c7_counterexample :
    ((calcKmerCoverage covPeaks : ℚ)) ≠
      ((covPeaks.map (fun p => p.mean * p.elements)).sum) /
        ((covPeaks.map (fun p => p.elements)).sum) := by
  with_unfolding_all decide

/-- C7 (amended): for peaks with nonnegative means and volumes,
`calcKmerCoverage` returns the floor (Python `int` truncation) of the
volume-weighted mean of the peak means, and returns 0 when the total
volume is 0. -/
theorem calcKmerCoverage_c7_amended (peaks : List FittedPeak)
    (hnn : ∀ p ∈ peaks, 0 ≤ p.elements ∧ 0 ≤ p.mean) :
    (0 < (peaks.map (fun p => p.elements)).sum →
      calcKmerCoverage peaks =
        ⌊(peaks.map (fun p => p.mean * p.elements)).sum /
          (peaks.map (fun p => p.elements)).sum⌋) ∧
    ((peaks.map (fun p => p.elements)).sum = 0 → calcKmerCoverage peaks = 0) := by
  constructor
  · intro hpos
    have hwnn : 0 ≤ (peaks.map (fun p => p.mean * p.elements)).sum := by
      apply List.sum_nonneg
      intro q hq
      simp only [List.mem_map] at hq
      obtain ⟨p, hp, rfl⟩ := hq
      exact mul_nonneg (hnn p hp).2 (hnn p hp).1
    have hq : 0 ≤ (peaks.map (fun p => p.mean * p.elements)).sum /
        (peaks.map (fun p => p.elements)).sum := div_nonneg hwnn hpos.le
    simp only [calcKmerCoverage, pyInt, hpos, if_true, hq]
  · intro hzero
    simp [calcKmerCoverage, hzero]

/-- C7 witness: the amended theorem applied to `covPeaks`: the computed
coverage is `⌊3 / 2⌋ = 1`. -/
theorem calcKmerCoverage_c7_witness : calcKmerCoverage covPeaks = 1 := by
  have h := (calcKmerCoverage_c7_amended covPeaks (by decide)).1
    (by with_unfolding_all decide)
  rw [h]
  with_unfolding_all decide

/-! ## C2 — the global fit never raises a peak height -/

/-- C2: for every non-empty peak set and any solver that respects the
bound vectors `optimise` hands it (scipy `least_squares` with
`bounds=(lb, ub)` returns a point inside the bounds), a successful
`optimise` leaves the histogram and k unchanged and writes back a peak set
of the same length in which every mean and stddev is unchanged and every
height is at most its pre-fit value. -/
theorem optimise_c2_height_bound
    (solver : List ℚ → List ℚ → List ℚ → Except String (Option (List ℚ)))
    (s : Spectra) (ps : List FittedPeak)
    (hps : s.peaks = some ps) (hne : ps ≠ [])
    (hsol : ∀ x, solver (ps.map (fun p => p.height)) (ps.map (fun _ => (0 : ℚ)))
        (ps.map (fun p => p.height)) = .ok (some x) →
      x.length = ps.length ∧ ∀ i, (hx : i < x.length) → (hp : i < ps.length) →
        0 ≤ x.get ⟨i, hx⟩ ∧ x.get ⟨i, hx⟩ ≤ (ps.get ⟨i, hp⟩).height) :
    ∀ s', optimise solver s = .ok s' →
      s'.histogram = s.histogram ∧ s'.k = s.k ∧
      ∃ ps', s'.peaks = some ps' ∧ ps'.length = ps.length ∧
        ∀ i, (h1 : i < ps'.length) → (h2 : i < ps.length) →
          (ps'.get ⟨i, h1⟩).mean = (ps.get ⟨i, h2⟩).mean ∧
          (ps'.get ⟨i, h1⟩).stddev = (ps.get ⟨i, h2⟩).stddev ∧
          (ps'.get ⟨i, h1⟩).height ≤ (ps.get ⟨i, h2⟩).height := by
  intro s' hok
  simp only [optimise, hps] at hok
  rw [if_neg hne] at hok
  rcases hq : solver (ps.map (fun p => p.height)) (ps.map (fun _ => (0 : ℚ)))
      (ps.map (fun p => p.height)) with e | xo
  · rw [hq] at hok
    cases hok
  · rw [hq] at hok
    cases xo with
    | none =>
      cases hok
      exact ⟨rfl, rfl, ps, hps, rfl, fun i h1 h2 => ⟨rfl, rfl, le_refl _⟩⟩
    | some x =>
      obtain ⟨hxlen, hxball⟩ := hsol x hq
      simp only [updateModel] at hok
      rw [if_neg (by rw [hxlen]; exact fun hcc => hcc rfl)] at hok
      cases hok
      refine ⟨rfl, rfl, List.zipWith (fun p y => { p with height := y }) ps x,
        rfl, by rw [List.length_zipWith]; omega, ?_⟩
      intro i h1 h2
      have hx : i < x.length := by rw [List.length_zipWith] at h1; omega
      have hget : (List.zipWith (fun p y => { p with height := y }) ps x).get
          ⟨i, h1⟩ = { ps.get ⟨i, h2⟩ with height := x.get ⟨i, hx⟩ } := by
        simp [List.get_eq_getElem, List.getElem_zipWith]
      rw [hget]
      exact ⟨rfl, rfl, (hxball i hx h2).2⟩

/-- A concrete solver that always succeeds with the vector `[2]`. -/
def solverHalfW : List ℚ → List ℚ → List ℚ → Except String (Option (List ℚ)) :=
  fun _ _ _ => .ok (some [2])

/-- A concrete one-peak spectra used as the C2 witness input. -/
def spectraW : Spectra := ⟨[5, 5, 5], 27, some [⟨10, 2, 4, 100⟩]⟩

/-- C2 witness: on `spectraW` with the solver returning `[2]`, `optimise`
succeeds and the single written-back peak keeps mean 10 and stddev 2 and
drops its height from 4 to 2. -/
theorem optimise_c2_witness :
    (Spectra.mk [5, 5, 5] 27 (some [⟨10, 2, 2, 100⟩])).histogram =
        spectraW.histogram ∧
      (Spectra.mk [5, 5, 5] 27 (some [⟨10, 2, 2, 100⟩])).k = spectraW.k ∧
      ∃ ps', (Spectra.mk [5, 5, 5] 27 (some [⟨10, 2, 2, 100⟩])).peaks = some ps' ∧
        ps'.length = ([⟨10, 2, 4, 100⟩] : List FittedPeak).length ∧
        ∀ i, (h1 : i < ps'.length) →
          (h2 : i < ([⟨10, 2, 4, 100⟩] : List FittedPeak).length) →
          (ps'.get ⟨i, h1⟩).mean =
            (([⟨10, 2, 4, 100⟩] : List FittedPeak).get ⟨i, h2⟩).mean ∧
          (ps'.get ⟨i, h1⟩).stddev =
            (([⟨10, 2, 4, 100⟩] : List FittedPeak).get ⟨i, h2⟩).stddev ∧
          (ps'.get ⟨i, h1⟩).height ≤
            (([⟨10, 2, 4, 100⟩] : List FittedPeak).get ⟨i, h2⟩).height := by
  refine optimise_c2_height_bound solverHalfW spectraW [⟨10, 2, 4, 100⟩] rfl
    (by decide) ?_ _ (by with_unfolding_all rfl)
  intro x hx
  simp only [solverHalfW, Except.ok.injEq, Option.some.injEq] at hx
  subst hx
  refine ⟨rfl, ?_⟩
  intro i h1 h2
  have hi0 : i = 0 := by simpa using h1
  subst hi0
  constructor
  · show (0 : ℚ) ≤ 2
    norm_num
  · show (2 : ℚ) ≤ 4
    norm_num

/-! ## C3 — the residual function -/

/-- The residual at one bin as the specification words it: zero on the
first five bins; otherwise the actual histogram value minus the model
curve (each peak evaluated at its fixed mean/stddev and candidate height,
its contribution inflated by 1000 when `mean - 2 * stddev < 1`), with a
negative difference multiplied by the number of peaks. -/
def residualAtSpec (createModel : ℚ → ℚ → ℚ → ℚ → ℚ) (hist : List ℚ)
    (ps : List FittedPeak) (params : List ℚ) (i : ℕ) : ℚ :=
  if i < 5 then 0
  else
    let modelAt :=
      (List.zipWith (fun p hh =>
        let contrib := createModel (i : ℚ) p.mean p.stddev hh
        if p.mean - 2 * p.stddev < 1 then contrib * 1000 else contrib)
        ps params).sum
    let r := hist.getD i 0 - modelAt
    if r < 0 then r * (ps.length : ℚ) else r

/-- C3: for every non-empty peak set and height vector of matching length,
`residuals` succeeds and returns exactly the per-bin value described by
the specification. -/
theorem residuals_c3_spec (createModel : ℚ → ℚ → ℚ → ℚ → ℚ) (s : Spectra)
    (ps : List FittedPeak) (params : List ℚ)
    (hps : s.peaks = some ps) (hne : ps ≠ []) (hlen : params.length = ps.length) :
    residuals createModel s params =
      .ok ((List.range s.histogram.length).map
        (residualAtSpec createModel s.histogram ps params)) := by
  simp only [residuals, hps]
  rw [if_neg (by simp [hlen])]
  congr 1
  apply List.ext_getElem
  · simp
  · intro i h1 h2
    rw [List.length_mapIdx, List.length_map, List.length_range] at h1
    have hmi := List.get_mapIdx
      ((List.range s.histogram.length).map (fun j =>
        s.histogram.getD j 0 -
          (List.zipWith (fun p hh =>
            let pdist := createModel (j : ℚ) p.mean p.stddev hh
            if p.mean - 2 * p.stddev < 1 then pdist * 1000 else pdist)
            ps params).sum))
      (fun i d =>
        let d2 := if d < 0 then d * (ps.length : ℚ) else d
        if i < 5 then 0 else d2) i (by simpa using h1)
    simp only [List.get_eq_getElem] at hmi
    rw [hmi]
    simp only [List.getElem_map, List.getElem_range, residualAtSpec]

/-- A concrete external curve model for the C3 witness: a flat curve at
the candidate height. -/
def createModelW : ℚ → ℚ → ℚ → ℚ → ℚ := fun _ _ _ hh => hh

/-- A concrete spectra for the C3 witness: histogram of length 7 and one
peak at mean 3 with stddev 1. -/
def spectraW3 : Spectra := ⟨[0, 0, 0, 0, 0, 0, 7], 27, some [⟨3, 1, 5, 9⟩]⟩

/-- C3 witness: the residual theorem applied to `spectraW3` with height
vector `[4]`. -/
theorem residuals_c3_witness :
    residuals createModelW spectraW3 [4] =
      .ok ((List.range spectraW3.histogram.length).map
        (residualAtSpec createModelW spectraW3.histogram [⟨3, 1, 5, 9⟩] [4])) :=
  residuals_c3_spec createModelW spectraW3 [⟨3, 1, 5, 9⟩] [4] rfl
    (by decide) rfl

/-! ## C4 — a failed global fit is caught and the peak set kept -/

/-- C4: whenever the global fit raises (the embedded `optimise` returns
`.error`), `analyse` returns normally (no exception propagates), emits the
fixed warning followed by the exception text on the diagnostic stream, and
the resulting peak set is exactly the locally refined, volume-filtered,
pre-fit peak set. -/
theorem analyse_c4_catches (createPeaks : Spectra → Option (List FittedPeak))
    (localOpt : List ℚ → FittedPeak → FittedPeak)
    (solver : List ℚ → List ℚ → List ℚ → Except String (Option (List ℚ)))
    (min_elements : ℚ) (s : Spectra) (ps : List FittedPeak) (msg : String)
    (h1 : createPeaks s = some ps) (h2 : ps ≠ [])
    (h3 : optimise solver { s with peaks := some ((ps.map (localOpt s.histogram)).filter
        (fun p => min_elements ≤ p.elements)) } = .error msg) :
    analyse createPeaks localOpt solver min_elements s =
      ({ s with peaks := some ((ps.map (localOpt s.histogram)).filter
          (fun p => min_elements ≤ p.elements)) }, [analyseWarning, msg]) := by
  simp only [analyse, h1]
  rw [if_neg h2, h3]

/-- A concrete solver that always raises. -/
def solverRaiseW : List ℚ → List ℚ → List ℚ → Except String (Option (List ℚ)) :=
  fun _ _ _ => .error "x0 is infeasible"

/-- A concrete initial-peak provider for the C4 witness. -/
def createPeaksW : Spectra → Option (List FittedPeak) :=
  fun _ => some [⟨10, 2, 4, 100⟩]

/-- An identity local optimiser for the C4 witness. -/
def localOptW : List ℚ → FittedPeak → FittedPeak := fun _ p => p

/-- The concrete spectra the C4 witness starts from. -/
def spectraW4 : Spectra := ⟨[1, 2, 3], 27, none⟩

/-- C4 witness: with a solver that raises, `analyse` on a concrete
spectra returns the locally refined peak set unchanged, together with the
warning and the exception text. -/
theorem analyse_c4_witness :
    analyse createPeaksW localOptW solverRaiseW 1 spectraW4 =
      ({ spectraW4 with peaks := some ((([⟨10, 2, 4, 100⟩] :
            List FittedPeak).map (localOptW [1, 2, 3])).filter
            (fun p => (1 : ℚ) ≤ p.elements)) },
        [analyseWarning, "x0 is infeasible"]) :=
  analyse_c4_catches createPeaksW localOptW solverRaiseW 1
    spectraW4 [⟨10, 2, 4, 100⟩] "x0 is infeasible" rfl
    (by decide) (by with_unfolding_all rfl)

/-! ## C1, C5, C9 — the initial peak locator -/

/-- Unfolded candidate list in the diploid case. -/
theorem candidateFreqs_false (fmax : ℕ) : candidateFreqs fmax false =
    [(fmax : ℚ) / 2, ((fmax * 1 : ℕ) : ℚ), ((fmax * 2 : ℕ) : ℚ),
      ((fmax * 3 : ℕ) : ℚ), ((fmax * 4 : ℕ) : ℚ)] := rfl

/-- Unfolded candidate list in the haploid case. -/
theorem candidateFreqs_true (fmax : ℕ) : candidateFreqs fmax true =
    [((fmax * 1 : ℕ) : ℚ), ((fmax * 2 : ℕ) : ℚ),
      ((fmax * 3 : ℕ) : ℚ), ((fmax * 4 : ℕ) : ℚ)] := rfl

/-- `int(mu)` of a whole number is itself. -/
theorem pkMean_natCast (m : ℕ) : pkMean ((m : ℕ) : ℚ) = m := by
  have hfl : ⌊((m : ℕ) : ℚ)⌋ = (m : ℤ) := Int.floor_natCast m
  unfold pkMean
  omega

/-- `int(fmax / 2.0)` is below `fmax` for positive `fmax`. -/
theorem pkMean_half_lt (n : ℕ) (hn : 0 < n) : pkMean ((n : ℚ) / 2) < n := by
  have h0 : (0 : ℚ) ≤ (n : ℚ) / 2 := by positivity
  have h1 : ((n : ℚ) / 2) < (n : ℚ) := by
    have hpos : (0 : ℚ) < n := by exact_mod_cast hn
    linarith
  have h2 : ⌊(n : ℚ) / 2⌋ < (n : ℤ) := Int.floor_lt.mpr (by exact_mod_cast h1)
  have h3 : 0 ≤ ⌊(n : ℚ) / 2⌋ := Int.floor_nonneg.mpr h0
  unfold pkMean
  omega

/-- Characterisation of a successful `_createInitialPeaks` run: `fmin` is
the minimum-scan result, `fmax` is at least 10, and the peak list is the
accepted candidates in list order. -/
theorem createInitialPeaksK_eq (h : List ℚ) (hap : Bool) (fmin fmax : ℕ)
    (ps : List InitialPeak)
    (heq : createInitialPeaksK h hap = (fmin, fmax, some ps)) :
    fmin = findFmin h ∧ 10 ≤ fmax ∧
      ps = ((candidateFreqs fmax hap).filter
        (fun mu => decide (pkAccept h.length (findFmin h) mu))).map
        (mkInitialPeak h fmax) := by
  simp only [createInitialPeaksK] at heq
  split at heq
  · rw [if_pos (by norm_num)] at heq
    simp at heq
  · split at heq
    · simp at heq
    · next hlt =>
      simp only [Prod.mk.injEq, Option.some.injEq] at heq
      obtain ⟨h1, h2, h3⟩ := heq
      subst h1
      subst h2
      refine ⟨rfl, by omega, ?_⟩
      rw [← h3, foldl_guard_append]
      simp

/-- C1: on every successful `_createInitialPeaks` run, a candidate
frequency appears in the peak set exactly when the boundary conditions
hold (`radius >= 2`, `mean > fmin`, `mu - radius > 0`,
`mu + radius < histogram length`); every emitted peak is an accepted
candidate, its height is the histogram value at its mean, and it is
primary exactly when its mean equals `fmax`. -/
theorem createInitialPeaks_c1 (h : List ℚ) (haploid : Bool) (fmin fmax : ℕ)
    (ps : List InitialPeak)
    (heq : createInitialPeaksK h haploid = (fmin, fmax, some ps)) :
    (∀ mu ∈ candidateFreqs fmax haploid, pkAccept h.length fmin mu →
      mkInitialPeak h fmax mu ∈ ps) ∧
    (∀ mu ∈ candidateFreqs fmax haploid, ¬ pkAccept h.length fmin mu →
      mkInitialPeak h fmax mu ∉ ps) ∧
    (∀ p ∈ ps, ∃ mu ∈ candidateFreqs fmax haploid,
      pkAccept h.length fmin mu ∧ p = mkInitialPeak h fmax mu) ∧
    (∀ p ∈ ps, p.height = h.getD p.mean 0 ∧
      (p.isPrimary = true ↔ p.mean = fmax)) := by
  obtain ⟨hfm, h10, hps⟩ := createInitialPeaksK_eq h haploid fmin fmax ps heq
  subst hfm
  refine ⟨?_, ?_, ?_, ?_⟩
  · intro mu hmu hacc
    rw [hps]
    exact List.mem_map_of_mem _ (List.mem_filter.mpr ⟨hmu, by simpa using hacc⟩)
  · intro mu hmu hacc hmem
    rw [hps] at hmem
    obtain ⟨mu', hmu', hmk⟩ := List.mem_map.mp hmem
    have hsq : mu' = mu := congrArg InitialPeak.sigmaSq hmk
    subst hsq
    exact hacc (by simpa using (List.mem_filter.mp hmu').2)
  · intro p hp
    rw [hps] at hp
    obtain ⟨mu, hmu, rfl⟩ := List.mem_map.mp hp
    have h1 := List.mem_filter.mp hmu
    exact ⟨mu, h1.1, by simpa using h1.2, rfl⟩
  · intro p hp
    rw [hps] at hp
    obtain ⟨mu, hmu, rfl⟩ := List.mem_map.mp hp
    exact ⟨rfl, decide_eq_true_iff⟩

/-- A synthetic bimodal histogram with a trough at bin 1 and the global
maximum (after the trough) at bin 12. -/
def witnessHist : List ℚ :=
  [100, 2, 3, 4, 6, 8, 10, 15, 20, 30, 40, 50, 60, 50, 40, 30, 20, 10, 5, 3]

/-- The peak set the locator emits on `witnessHist`: the heterozygous
candidate at mean 6 and the primary homozygous candidate at mean 12 (the
repeat candidates 24, 36, 48 fail the right-boundary condition). -/
def witnessPeaks : List InitialPeak := [⟨6, 6, 10, false⟩, ⟨12, 12, 60, true⟩]

set_option maxRecDepth 100000 in
/-- C1 witness: on `witnessHist` the accepted heterozygous candidate
`mu = 6` is emitted. -/
theorem createInitialPeaks_c1_witness :
    mkInitialPeak witnessHist 12 6 ∈ witnessPeaks := by
  have hthm := createInitialPeaks_c1 witnessHist false 1 12 witnessPeaks
    (by with_unfolding_all decide)
  exact hthm.1 6 (by with_unfolding_all decide) (by with_unfolding_all decide)

/-- C5: for every histogram, if no index in the scan from bin 1 satisfies
the two-step local-minimum test then `fmin` stays 0 and the peak set is
`none`; and whenever the computed `fmax` is below 10 the peak set is
`none`. -/
theorem createInitialPeaks_c5 (h : List ℚ) (haploid : Bool) (fmin fmax : ℕ)
    (res : Option (List InitialPeak))
    (heq : createInitialPeaksK h haploid = (fmin, fmax, res)) :
    ((∀ i ∈ List.range' 1 (h.length - 3),
        ¬(h.getD i 0 < h.getD (i + 1) 0 ∧ h.getD i 0 < h.getD (i + 2) 0)) →
      fmin = 0 ∧ res = none) ∧
    (fmax < 10 → res = none) := by
  constructor
  · intro hno
    have hfm : findFmin h = 0 := by
      unfold findFmin
      have hnone : (List.range' 1 (h.length - 3)).find? (fun i =>
          decide (h.getD i 0 < h.getD (i + 1) 0) &&
            decide (h.getD i 0 < h.getD (i + 2) 0)) = none := by
        rw [List.find?_eq_none]
        intro x hx
        simp only [Bool.and_eq_true, decide_eq_true_eq]
        exact hno x hx
      rw [hnone]
      rfl
    have hval : createInitialPeaksK h haploid = (0, 0, none) := by
      unfold createInitialPeaksK
      rw [hfm]
      norm_num
    rw [hval] at heq
    simp only [Prod.mk.injEq] at heq
    exact ⟨heq.1.symm, heq.2.2.symm⟩
  · intro h10
    simp only [createInitialPeaksK] at heq
    split at heq
    · rw [if_pos (by norm_num)] at heq
      simp only [Prod.mk.injEq] at heq
      exact heq.2.2.symm
    · split at heq
      · simp only [Prod.mk.injEq] at heq
        exact heq.2.2.symm
      · next hlt =>
        simp only [Prod.mk.injEq] at heq
        obtain ⟨h1, h2, h3⟩ := heq
        omega

/-- C5 witness: on the strictly decreasing histogram `[10, 9, 8, 7, 6]`
no local minimum is found, `fmin` stays 0 and no peaks are produced. -/
theorem createInitialPeaks_c5_witness :
    (createInitialPeaksK [10, 9, 8, 7, 6] false).1 = 0 ∧
      (createInitialPeaksK [10, 9, 8, 7, 6] false).2.2 = none := by
  have hthm := createInitialPeaks_c5 [10, 9, 8, 7, 6] false
    (createInitialPeaksK [10, 9, 8, 7, 6] false).1
    (createInitialPeaksK [10, 9, 8, 7, 6] false).2.1
    (createInitialPeaksK [10, 9, 8, 7, 6] false).2.2 rfl
  exact hthm.1 (by decide)

/-- C9: every successful `_createInitialPeaks` run emits at most 5 peaks
when diploid and at most 4 when haploid (one per candidate frequency),
and the emitted peaks are in strictly increasing order of mean. -/
theorem createInitialPeaks_c9 (h : List ℚ) (haploid : Bool) (fmin fmax : ℕ)
    (ps : List InitialPeak)
    (heq : createInitialPeaksK h haploid = (fmin, fmax, some ps)) :
    ps.length ≤ (if haploid then 4 else 5) ∧
      List.Pairwise (fun a b => a.mean < b.mean) ps := by
  obtain ⟨hfm, h10, hps⟩ := createInitialPeaksK_eq h haploid fmin fmax ps heq
  have hpos : 0 < fmax := by omega
  constructor
  · rw [hps, List.length_map]
    have hle := List.length_filter_le
      (fun mu => decide (pkAccept h.length (findFmin h) mu))
      (candidateFreqs fmax haploid)
    cases haploid
    · have hc : (candidateFreqs fmax false).length = 5 := rfl
      show _ ≤ 5
      omega
    · have hc : (candidateFreqs fmax true).length = 4 := rfl
      show _ ≤ 4
      omega
  · rw [hps, List.pairwise_map]
    apply List.Pairwise.sublist (List.filter_sublist _)
    have hh := pkMean_half_lt fmax hpos
    cases haploid
    · rw [candidateFreqs_false]
      simp only [List.pairwise_cons, List.forall_mem_cons, List.not_mem_nil,
        false_implies, implies_true, List.Pairwise.nil, and_true,
        mkInitialPeak]
      simp only [pkMean_natCast]
      omega
    · rw [candidateFreqs_true]
      simp only [List.pairwise_cons, List.forall_mem_cons, List.not_mem_nil,
        false_implies, implies_true, List.Pairwise.nil, and_true,
        mkInitialPeak]
      simp only [pkMean_natCast]
      omega

set_option maxRecDepth 100000 in
/-- C9 witness: the theorem applied to `witnessHist`: 2 peaks, at most 5,
with strictly increasing means 6 and 12. -/
theorem createInitialPeaks_c9_witness :
    witnessPeaks.length ≤ (if false then 4 else 5) ∧
      List.Pairwise (fun a b : InitialPeak => a.mean < b.mean) witnessPeaks :=
  createInitialPeaks_c9 witnessHist false 1 12 witnessPeaks
    (by with_unfolding_all decide)

/-! ## C6, C10 — the homozygous peak index -/

/-- Folding `min` never exceeds the initial accumulator. -/
theorem foldr_min_le_init (l : List ℚ) (a : ℚ) : l.foldr min a ≤ a := by
  induction l with
  | nil => simp
  | cons c t ih =>
    simp only [List.foldr_cons]
    exact le_trans (min_le_right _ _) ih

/-- Lowering the initial accumulator of a `min` fold commutes with taking
`min` outside. -/
theorem foldr_min_init_comm (l : List ℚ) (a b : ℚ) (hab : a ≤ b) :
    l.foldr min a = min a (l.foldr min b) := by
  induction l with
  | nil => simp [min_eq_left hab]
  | cons c t ih =>
    simp only [List.foldr_cons, ih]
    rw [min_left_comm]

/-- A `min` fold over entries all at least the accumulator returns the
accumulator. -/
theorem foldr_min_of_le (l : List ℚ) (a : ℚ) (h : ∀ d ∈ l, a ≤ d) :
    l.foldr min a = a := by
  induction l with
  | nil => rfl
  | cons c t ih =>
    simp only [List.foldr_cons]
    rw [ih (fun d hd => h d (by simp [hd]))]
    exact min_eq_right (h c (by simp))

/-- Closed form of the strict-improvement scan of
`getHomozygousPeakIndex`: starting from index `i`, fallback `idx` and
threshold `best`, it returns `idx` unless some distance beats `best`, in
which case it returns `i` plus the position of the first occurrence of the
minimal distance. -/
theorem closestPeakLoop_eq (approx : ℚ) : ∀ (l : List FittedPeak) (i idx : ℕ)
    (best : ℚ),
    closestPeakLoop approx l i idx best =
      if (l.map (fun p => |p.mean - approx|)).foldr min best < best then
        i + (l.map (fun p => |p.mean - approx|)).findIdx
          (fun d => decide (d = (l.map (fun p => |p.mean - approx|)).foldr min best))
      else idx := by
  intro l
  induction l with
  | nil => intro i idx best; simp [closestPeakLoop]
  | cons p t ih =>
    intro i idx best
    simp only [List.map_cons, List.foldr_cons]
    show (if best > |p.mean - approx| then
        closestPeakLoop approx t (i + 1) i |p.mean - approx|
      else closestPeakLoop approx t (i + 1) idx best) = _
    by_cases hlt : |p.mean - approx| < best
    · rw [if_pos hlt, ih (i + 1) i |p.mean - approx|]
      have hM : (t.map (fun p => |p.mean - approx|)).foldr min |p.mean - approx| =
          min |p.mean - approx|
            ((t.map (fun p => |p.mean - approx|)).foldr min best) :=
        foldr_min_init_comm _ _ _ hlt.le
      have hMle := foldr_min_le_init (t.map (fun p => |p.mean - approx|))
        |p.mean - approx|
      by_cases hin : (t.map (fun p => |p.mean - approx|)).foldr min
          |p.mean - approx| < |p.mean - approx|
      · rw [if_pos hin]
        have hcond : min |p.mean - approx|
            ((t.map (fun p => |p.mean - approx|)).foldr min best) < best := by
          rw [← hM]; exact lt_of_le_of_lt hMle hlt
        rw [if_pos hcond, List.findIdx_cons]
        have hned0 : ¬ (|p.mean - approx| = min |p.mean - approx|
            ((t.map (fun p => |p.mean - approx|)).foldr min best)) := by
          rw [← hM]; intro hcc; rw [← hcc] at hin; exact lt_irrefl _ hin
        rw [decide_eq_false hned0]
        simp only [cond_false, ← hM]
        omega
      · have heq0 : (t.map (fun p => |p.mean - approx|)).foldr min
            |p.mean - approx| = |p.mean - approx| :=
          le_antisymm hMle (not_lt.mp hin)
        rw [if_neg hin]
        have hm2 : min |p.mean - approx|
            ((t.map (fun p => |p.mean - approx|)).foldr min best) =
            |p.mean - approx| := by
          rw [← hM, heq0]
        simp only [hm2]
        rw [if_pos hlt, List.findIdx_cons, decide_eq_true rfl]
        simp
    · rw [if_neg hlt, ih (i + 1) idx best]
      have hbd := foldr_min_le_init (t.map (fun p => |p.mean - approx|)) best
      have hmin : min |p.mean - approx|
          ((t.map (fun p => |p.mean - approx|)).foldr min best) =
          (t.map (fun p => |p.mean - approx|)).foldr min best :=
        min_eq_right (le_trans hbd (not_lt.mp hlt))
      simp only [hmin]
      by_cases hc : (t.map (fun p => |p.mean - approx|)).foldr min best < best
      · rw [if_pos hc, if_pos hc, List.findIdx_cons]
        have hne0 : ¬ (|p.mean - approx| =
            (t.map (fun p => |p.mean - approx|)).foldr min best) := by
          intro hcc
          rw [← hcc] at hc
          exact hlt hc
        rw [decide_eq_false hne0]
        simp only [cond_false]
        omega
      · rw [if_neg hc, if_neg hc]

/-- Closed form of the fallback scan of `getHomozygousPeakIndex`. -/
theorem primaryPeakLoop_eq (fmax : ℕ) : ∀ (l : List FittedPeak) (i : ℕ),
    primaryPeakLoop fmax l i =
      (l.findIdx? (fun p => decide (|p.mean - (fmax : ℚ)| < 1))).elim 0
        (fun j => i + j) := by
  intro l
  induction l with
  | nil => intro i; rfl
  | cons p t ih =>
    intro i
    show (if |p.mean - (fmax : ℚ)| < 1 then i else primaryPeakLoop fmax t (i + 1)) = _
    rw [List.findIdx?_cons]
    by_cases hp : |p.mean - (fmax : ℚ)| < 1
    · rw [if_pos hp, decide_eq_true hp]
      simp
    · rw [if_neg hp, decide_eq_false hp, if_neg (by simp), ih (i + 1),
        List.findIdx?_succ]
      cases t.findIdx? (fun p => decide (|p.mean - (fmax : ℚ)| < 1)) with
      | none => rfl
      | some j => simp [Option.elim]; omega

/-- The first half of the amended homozygous-index behaviour, modelled
from the claim wording plus the correction: the 1-based position of the
first peak attaining the minimal distance to the supplied frequency,
provided that minimal distance beats the initial delta of 1000000;
otherwise 0. -/
def closestPeakIdxSpec (approx : ℚ) (peaks : List FittedPeak) : ℕ :=
  let ds := peaks.map (fun p => |p.mean - approx|)
  let m := ds.foldr min 1000000
  if m < 1000000 then ds.findIdx (fun d => decide (d = m)) + 1 else 0

/-- The second half of the claim, modelled from its wording: the 1-based
index of the first peak whose mean is within 1.0 of `fmax`, or 0 if none
qualifies. -/
def primaryPeakIdxSpec (fmax : ℕ) (peaks : List FittedPeak) : ℕ :=
  match peaks.findIdx? (fun p => decide (|p.mean - (fmax : ℚ)| < 1)) with
  | some i => i + 1
  | none => 0

/-- C6 counterexample: a single peak at mean 2000000 with approximate
frequency 1 — the claim demands the closest peak (index 1), but the scan
never improves on the initial delta of 1000000 and the function returns
0. -/
theorem getHomozygousPeakIndex_c6_counterexample :
    getHomozygousPeakIndex 0 [⟨2000000, 1, 1, 1⟩] 1 ≠ 1 := by
  with_unfolding_all decide

/-- C6 (amended): for every non-empty peak set, with a supplied
approximate frequency > 0 the function returns the 1-based index of the
peak whose mean is numerically closest (ties to the lowest index)
provided that distance is below 1000000, and 0 otherwise; with no
approximate frequency (argument at most 0) it returns the 1-based index
of the first peak within 1.0 of `fmax`, or 0 when none qualifies. -/
theorem getHomozygousPeakIndex_c6_amended (fmax : ℕ) (peaks : List FittedPeak)
    (approx : ℚ) (hne : peaks ≠ []) :
    (0 < approx →
      getHomozygousPeakIndex fmax peaks approx = closestPeakIdxSpec approx peaks) ∧
    (approx ≤ 0 →
      getHomozygousPeakIndex fmax peaks approx = primaryPeakIdxSpec fmax peaks) := by
  constructor
  · intro hpos
    unfold getHomozygousPeakIndex
    rw [if_pos hpos, closestPeakLoop_eq]
    unfold closestPeakIdxSpec
    by_cases hc : (peaks.map (fun p => |p.mean - approx|)).foldr min 1000000 < 1000000
    · rw [if_pos hc, if_pos hc]
      omega
    · rw [if_neg hc, if_neg hc]
  · intro hnpos
    unfold getHomozygousPeakIndex
    rw [if_neg (not_lt.mpr hnpos), primaryPeakLoop_eq]
    unfold primaryPeakIdxSpec
    cases peaks.findIdx? (fun p => decide (|p.mean - (fmax : ℚ)| < 1)) with
    | none => rfl
    | some j => simp [Option.elim]; omega

/-- Two peaks at means 6 and 12 for the C6 witness. -/
def homPeaksW : List FittedPeak := [⟨6, 1, 1, 1⟩, ⟨12, 1, 1, 1⟩]

/-- C6 witness: on `homPeaksW` with `fmax = 12`, the amended theorem
applied at approximate frequency 7 (closest peak: index 1) and at the
default 0 (first peak within 1.0 of `fmax`: index 2), with the spec-side
values evaluated. -/
theorem getHomozygousPeakIndex_c6_witness :
    getHomozygousPeakIndex 12 homPeaksW 7 = closestPeakIdxSpec 7 homPeaksW ∧
      getHomozygousPeakIndex 12 homPeaksW 0 = primaryPeakIdxSpec 12 homPeaksW ∧
      closestPeakIdxSpec 7 homPeaksW = 1 ∧ primaryPeakIdxSpec 12 homPeaksW = 2 := by
  refine ⟨(getHomozygousPeakIndex_c6_amended 12 homPeaksW 7 (by decide)).1
      (by norm_num),
    (getHomozygousPeakIndex_c6_amended 12 homPeaksW 0 (by decide)).2 le_rfl,
    by with_unfolding_all decide, by with_unfolding_all decide⟩

/-- C10: with a supplied approximate frequency and every peak at distance
at least 1000000 (the hard-coded initial delta) from it, the function
returns 0 even though peaks exist. -/
theorem getHomozygousPeakIndex_c10 (fmax : ℕ) (peaks : List FittedPeak)
    (approx : ℚ) (hne : peaks ≠ []) (hpos : 0 < approx)
    (hfar : ∀ p ∈ peaks, 1000000 ≤ |p.mean - approx|) :
    getHomozygousPeakIndex fmax peaks approx = 0 := by
  unfold getHomozygousPeakIndex
  rw [if_pos hpos, closestPeakLoop_eq]
  have hf : (peaks.map (fun p => |p.mean - approx|)).foldr min 1000000 = 1000000 := by
    apply foldr_min_of_le
    intro d hd
    obtain ⟨p, hp, rfl⟩ := List.mem_map.mp hd
    exact hfar p hp
  rw [if_neg (by rw [hf]; exact lt_irrefl _)]

/-- A single far-away peak for the C10 witness. -/
def farPeakW : List FittedPeak := [⟨2000000, 1, 1, 1⟩]

/-- C10 witness: the theorem applied to the single peak at mean 2000000
with approximate frequency 1. -/
theorem getHomozygousPeakIndex_c10_witness :
    getHomozygousPeakIndex 0 farPeakW 1 = 0 :=
  getHomozygousPeakIndex_c10 0 farPeakW 1 (by decide) (by decide)
    (by with_unfolding_all decide)

end KatSpectra
